import Mathlib

/-!
Verification development for the ush parallel execution engine.

Shallow embedding of the exec package: Spec validation, the argv
materialisation of runCmd, the lossyWriter bounded output sink, the
synchronizedWriter line-synchronised sink, the JumpExec fan-out argv
synthesis and parallelism degradation, and the ssh-agent handshake
parser.  Go byte strings ([]byte) are modelled as `List Char`, each
`Char` standing for one byte.
-/

/-- Marker appended by lossyWriter.Write when the limit is reached. -/
def ellipsisMarker : List Char := "[...]".data

/-- Decidable test whether `pat` is a prefix of `s`. -/
def isPre {α : Type} [DecidableEq α] : List α → List α → Bool
  | [], _ => true
  | _ :: _, [] => false
  | a :: as, b :: bs => if a = b then isPre as bs else false

/-- Decidable test whether `pat` occurs as a contiguous sublist of the subject. -/
def occursIn {α : Type} [DecidableEq α] (pat : List α) : List α → Bool
  | [] => pat.isEmpty
  | b :: bs => isPre pat (b :: bs) || occursIn pat bs

/-- Fuel-indexed core of Go strings.Replace with count -1: replace all
non-overlapping occurrences, scanning left to right.  It is used with
fuel = length of the subject, which is always sufficient.  The engine
only replaces the non-empty patterns {.T} and {.J}; the empty-pattern
(insertion) case of strings.Replace is never exercised and is mapped to
the identity here. -/
def replaceGo (pat rep : List Char) : Nat → List Char → List Char
  | _, [] => []
  | 0, s => s
  | fuel + 1, c :: cs =>
    if pat ≠ [] ∧ isPre pat (c :: cs) = true then
      rep ++ replaceGo pat rep fuel (List.drop pat.length (c :: cs))
    else
      c :: replaceGo pat rep fuel cs

/-- Go strings.Replace(s, pat, rep, -1) on byte lists. -/
def replaceTok (pat rep s : List Char) : List Char := replaceGo pat rep s.length s

/-- Go strings.Replace(s, pat, rep, -1) on strings. -/
def goReplace (s pat rep : String) : String := ⟨replaceTok pat.data rep.data s.data⟩

/-- Go strings.Split with a one-character separator: splits on every
occurrence, keeping empty fields; the result is never empty. -/
def splitOnChar (sep : Char) : List Char → List (List Char)
  | [] => [[]]
  | c :: cs =>
    if c = sep then [] :: splitOnChar sep cs
    else
      match splitOnChar sep cs with
      | [] => [[c]]
      | r :: rs => (c :: r) :: rs

/-- Go strings.Split on strings, one-character separator. -/
def goSplit (s : String) (sep : Char) : List String := (splitOnChar sep s.data).map String.mk

/-- Split at the first occurrence of `sep`, when present. -/
def splitFirst (sep : Char) : List Char → Option (List Char × List Char)
  | [] => none
  | c :: cs =>
    if c = sep then some ([], cs)
    else
      match splitFirst sep cs with
      | none => none
      | some (a, b) => some (c :: a, b)

/-- Go bytes.SplitN(s, sep, 2) with a one-byte separator: at most two
fields, the second carrying the remainder verbatim. -/
def splitN2 (sep : Char) (s : List Char) : List (List Char) :=
  match splitFirst sep s with
  | none => [s]
  | some (a, b) => [a, b]

/-- Go bytes.Index with a one-byte separator: index of the first
occurrence, `none` standing for Go's -1. -/
def byteIndex (sep : Char) : List Char → Option Nat
  | [] => none
  | c :: cs => if c = sep then some 0 else (byteIndex sep cs).map (· + 1)

/-- Space-join of an argv, as performed by the echo command. -/
def joinSpace : List String → String
  | [] => ""
  | [a] => a
  | a :: rest => a ++ " " ++ joinSpace rest

/-- Go strconv.Itoa. -/
def goItoa (n : Int) : String := toString n

-- sanity examples (concrete behaviour of the utility layer)
example : replaceTok "{.T}".data "x".data "echo{.T}".data = "echox".data := by decide
example : goSplit "echo localhost" ' ' = ["echo", "localhost"] := by decide
example : splitN2 '=' "FOO=bar".data = ["FOO".data, "bar".data] := by decide
example : byteIndex '\n' "ab\ncd".data = some 2 := by decide

/-- Spec validation errors (exec package, part_000 lines 18-25). -/
inductive SpecError
  | noCommand
  | noTimeout
  | noParallel
  | noStdoutBytes
  | noStderrBytes
deriving DecidableEq

/-- Spec is the specification for a batch execution (part_000 lines 27-37).
Timeout is a Go time.Duration (int64 nanoseconds); the Go int fields are
modelled as Int.  Zero values are the Go defaults. -/
structure Spec where
  Command : String := ""
  Args : List String := []
  Timeout : Int := 0
  Parallel : Int := 0
  StdoutBytes : Int := 0
  StderrBytes : Int := 0
  FileOrigin : String := ""
  ServeAddress : String := ""

/-- Validate checks the spec (part_000 lines 40-55); `none` is Go's nil error. -/
def Spec.Validate (s : Spec) : Option SpecError :=
  if s.Command = "" then some .noCommand
  else if s.Timeout ≤ 0 then some .noTimeout
  else if s.Parallel ≤ 0 then some .noParallel
  else if s.StdoutBytes ≤ 0 then some .noStdoutBytes
  else if s.StderrBytes ≤ 0 then some .noStderrBytes
  else none

/-- Argv materialisation performed per target by runCmd (part_000 lines
107-113): strings.Replace of the marker in the command and in every
argument. -/
def runCmdArgv (s : Spec) (target : String) : String × List String :=
  (goReplace s.Command "{.T}" target, s.Args.map (fun a => goReplace a "{.T}" target))

/-- lossyWriter (part_000 lines 148-152): byte cap plus captured buffer. -/
structure LossyWriter where
  Limit : Nat
  Buffer : List Char

/-- lossyWriter.Write (part_000 lines 156-175).  bytes.Buffer.Write never
fails in Go, so the error path is vacuous; the Nat is the returned int. -/
def LossyWriter.Write (w : LossyWriter) (p : List Char) : Nat × LossyWriter :=
  let writeSize := p.length
  let bufferSize := w.Buffer.length
  if bufferSize ≥ w.Limit then (writeSize, w)
  else
    let limit := if bufferSize + writeSize > w.Limit then w.Limit - bufferSize else writeSize
    let buf1 := w.Buffer ++ p.take limit
    let buf2 := if buf1.length = w.Limit then buf1 ++ ellipsisMarker else buf1
    (writeSize, { w with Buffer := buf2 })

/-- Buffer contents after a sequence of writes into a fresh lossyWriter,
as runCmd captures a child's stdout/stderr stream. -/
def lossyRun (limit : Nat) (ws : List (List Char)) : List Char :=
  (ws.foldl (fun w p => (w.Write p).2) (⟨limit, []⟩ : LossyWriter)).Buffer

/-- The drain/retain core of synchronizedWriter.Write (jumpexec.go lines
160-178): returns the chunk drained to the shared underlying writer under
the mutex, and the new per-instance buffer. -/
def syncWriteChunk (b p : List Char) : List Char × List Char :=
  match byteIndex '\n' p with
  | none => ([], b ++ p)
  | some 0 => ([], b)
  | some idx => (b ++ p.take idx, p.drop idx)

/-- synchronizedWriter (jumpexec.go lines 154-158) for a single sink: the
shared underlying writer accumulated so far, and the per-instance buffer. -/
structure SynchronizedWriter where
  Writer : List Char
  b : List Char

/-- synchronizedWriter.Write (jumpexec.go lines 160-178); the returned int
is len(p) on every path and errors cannot occur on a pure buffer. -/
def SynchronizedWriter.Write (s : SynchronizedWriter) (p : List Char) : SynchronizedWriter :=
  let d := syncWriteChunk s.b p
  { Writer := s.Writer ++ d.1, b := d.2 }

/-- synchronizedWriter.Flush (jumpexec.go lines 180-185): io.Copy drains
the whole per-instance buffer under the mutex. -/
def SynchronizedWriter.Flush (s : SynchronizedWriter) : SynchronizedWriter :=
  { Writer := s.Writer ++ s.b, b := [] }

/-- Modelled from the claim's words, for comparison with syncWriteChunk:
bytes before the first newline append to the buffer, the accumulated
buffer is drained, and the bytes strictly after that newline are retained;
with no newline the input is buffered. -/
def syncWriteClaimed (b p : List Char) : List Char × List Char :=
  let pre := p.takeWhile (fun c => c != '\n')
  let post := p.dropWhile (fun c => c != '\n')
  if post = [] then ([], b ++ p) else (b ++ pre, post.tail)

/-- The actual behaviour of syncWriteChunk, phrased by cases on the input:
no newline buffers the input; a leading newline discards the input whole;
otherwise the bytes before the first newline join the drain and the bytes
from the newline onward (newline included) are retained. -/
def syncWriteAmended (b p : List Char) : List Char × List Char :=
  let pre := p.takeWhile (fun c => c != '\n')
  let post := p.dropWhile (fun c => c != '\n')
  if post = [] then ([], b ++ p)
  else if pre = [] then ([], b)
  else (b ++ pre, post)

/-- One operation on a pair of synchronizedWriters that share one mutex
and one underlying writer (as JumpExec builds one sink per jump host over
the shared output writer). -/
inductive SinkOp
  | wA (p : List Char)
  | wB (p : List Char)
  | fA
  | fB

/-- Shared underlying writer with provenance: each drained byte is tagged
with the sink (true = A, false = B) whose drain emitted it. -/
structure TwoSinks where
  out : List (Bool × Char)
  bufA : List Char
  bufB : List Char

/-- Tag a drained chunk with its sink of origin. -/
def tagged (id : Bool) (l : List Char) : List (Bool × Char) := l.map (fun c => (id, c))

/-- Interleaving semantics of two sinks on one mutex: each drain
(io.Copy under the mutex) appends its chunk to the shared writer
atomically; operations on distinct sinks may be scheduled in any order. -/
def twoSinkStep (st : TwoSinks) : SinkOp → TwoSinks
  | .wA p =>
    let d := syncWriteChunk st.bufA p
    { st with out := st.out ++ tagged true d.1, bufA := d.2 }
  | .wB p =>
    let d := syncWriteChunk st.bufB p
    { st with out := st.out ++ tagged false d.1, bufB := d.2 }
  | .fA => { st with out := st.out ++ tagged true st.bufA, bufA := [] }
  | .fB => { st with out := st.out ++ tagged false st.bufB, bufB := [] }

/-- Run a schedule of operations from the initial (empty) state. -/
def twoSinkRun (ops : List SinkOp) : TwoSinks :=
  ops.foldl twoSinkStep ⟨[], [], []⟩

/-- JumpSpec (jumpexec.go lines 35-40): Spec plus jump-host settings. -/
structure JumpSpec extends Spec where
  JumpHostsKeyFile : String := ""
  JumpCommand : String := ""
  JumpHosts : List String := []

/-- Per-intermediary parallelism computed by JumpExec (jumpexec.go lines
63-66).  Go int division truncates toward zero, hence Int.tdiv. -/
def jumpParallel (s : JumpSpec) : Int :=
  let parallel := Int.tdiv s.Parallel (s.JumpHosts.length : Int)
  if parallel = 0 then 1 else parallel

/-- Remote-shell argv synthesis of JumpExec for one jump host (jumpexec.go
lines 90-107): replace the host marker in JumpCommand, tokenise on
spaces (strings.Split always yields at least one field, so args[0] is
safe), then append the nested-engine suffix and the original Args.
`timeoutStr` stands for s.Timeout.String(), rendered by the Go standard
library. -/
def jumpArgv (s : JumpSpec) (host : String) (timeoutStr : String) : String × List String :=
  let cmd := goReplace s.JumpCommand "{.J}" host
  let args := goSplit cmd ' '
  let cmd := args.headD ""
  let args := args.tail
  let ushargs := ["--", "ush", "exec",
    "--timeout=" ++ timeoutStr,
    "--parallel=" ++ goItoa (jumpParallel s),
    "--stdout_bytes=" ++ goItoa s.StdoutBytes,
    "--stderr_bytes=" ++ goItoa s.StderrBytes,
    "--", s.Command]
  (cmd, args ++ ushargs ++ s.Args)

/-- Outcome of the ssh-agent handshake parser on a complete first line. -/
inductive AgentOutcome
  | sock (path : List Char)
  | rejectLine (line : List Char)
  | indexOutOfRange
deriving DecidableEq

/-- The per-line logic of sshAgentStdout.Write (jumpexec.go lines 240-251):
split the first line on "=", apply the malformed-line guard (a conjunction
in the source), then read parts[1] and take the value up to ";".
`sock` means the parser proceeds to stat and deliver that socket path (the
subsequent os.Stat is external I/O and not modelled); `rejectLine` is the
"unexpected output from ssh-agent" error; `indexOutOfRange` is the Go
panic on parts[1] when the split produced a single field. -/
def agentParseLine (line1 : List Char) : AgentOutcome :=
  let parts := splitN2 '=' line1
  if parts.length ≠ 2 ∧ ¬ (parts.headD [] = "SSH_AUTH_SOCK".data) then .rejectLine line1
  else
    match parts.get? 1 with
    | none => .indexOutOfRange
    | some p1 => .sock ((splitN2 ';' p1).headD [])

/-- sshAgentStdout.Write (jumpexec.go lines 227-254): accumulate bytes; once
the input carries a newline, parse exactly the first line of the
accumulated buffer.  Returns (done flag, buffer, parse outcome if any). -/
def sshAgentWriteStep (done : Bool) (b : List Char) (p : List Char) :
    Bool × List Char × Option AgentOutcome :=
  if done then (done, b, none)
  else
    let b1 := b ++ p
    match byteIndex '\n' p with
    | none => (false, b1, none)
    | some _ =>
      let line1 := (splitN2 '\n' b1).headD []
      match agentParseLine line1 with
      | .sock s => (true, b1, some (.sock s))
      | o => (false, b1, some o)

/-- Normal form of a lossyWriter buffer fed a stream whose concatenation is
`bytes`: the raw bytes while strictly under the limit, and the truncated
prefix with the marker once the limit is reached. -/
def lossySaturate (limit : Nat) (bytes : List Char) : List Char :=
  if bytes.length < limit then bytes else bytes.take limit ++ ellipsisMarker

theorem lossyWrite_saturate (limit : Nat) (bytes p : List Char) :
    (LossyWriter.Write ⟨limit, lossySaturate limit bytes⟩ p).2 =
      ⟨limit, lossySaturate limit (bytes ++ p)⟩ := by
  simp only [LossyWriter.Write, lossySaturate]
  by_cases hb : bytes.length < limit
  · rw [if_pos hb]
    by_cases hover : bytes.length + p.length > limit
    · have hge : ¬ (bytes.length ≥ limit) := by omega
      simp only [if_neg hge, if_pos hover]
      have hlen : (bytes ++ p.take (limit - bytes.length)).length = limit := by
        simp only [List.length_append, List.length_take]
        omega
      rw [if_pos hlen]
      have hnot : ¬ ((bytes ++ p).length < limit) := by
        simp only [List.length_append]; omega
      rw [if_neg hnot]
      have htake : (bytes ++ p).take limit = bytes ++ p.take (limit - bytes.length) := by
        rw [List.take_append_eq_append_take, List.take_of_length_le (le_of_lt hb)]
      rw [htake]
    · have hge : ¬ (bytes.length ≥ limit) := by omega
      simp only [if_neg hge, if_neg hover, List.take_length]
      by_cases heq : (bytes ++ p).length = limit
      · rw [if_pos heq]
        have hnot : ¬ ((bytes ++ p).length < limit) := by omega
        rw [if_neg hnot, List.take_of_length_le (le_of_eq heq)]
      · rw [if_neg heq]
        have hlt : (bytes ++ p).length < limit := by
          simp only [List.length_append] at heq hover ⊢
          omega
        rw [if_pos hlt]
  · rw [if_neg hb]
    have hge : (bytes.take limit ++ ellipsisMarker).length ≥ limit := by
      simp only [List.length_append, List.length_take, ellipsisMarker]
      omega
    rw [if_pos hge]
    have hnot : ¬ ((bytes ++ p).length < limit) := by
      simp only [List.length_append]; omega
    rw [if_neg hnot]
    have htake : (bytes ++ p).take limit = bytes.take limit := by
      rw [List.take_append_of_le_length (by omega)]
    rw [htake]

theorem lossyRun_saturate (limit : Nat) (ws : List (List Char)) :
    ∀ bytes : List Char,
      (ws.foldl (fun w p => (w.Write p).2) (⟨limit, lossySaturate limit bytes⟩ : LossyWriter)).Buffer =
        lossySaturate limit (bytes ++ ws.flatten) := by
  induction ws with
  | nil => intro bytes; simp [List.flatten]
  | cons p ps ih =>
    intro bytes
    simp only [List.foldl_cons, lossyWrite_saturate limit bytes p, List.flatten_cons]
    rw [ih (bytes ++ p), List.append_assoc]

/-- The buffer of a fresh lossyWriter after any write stream equals the
saturation normal form of the stream's concatenation. -/
theorem lossyRun_eq (limit : Nat) (hl : 0 < limit) (ws : List (List Char)) :
    lossyRun limit ws = lossySaturate limit ws.flatten := by
  have h0 : (⟨limit, []⟩ : LossyWriter) = ⟨limit, lossySaturate limit []⟩ := by
    simp [lossySaturate, hl]
  rw [lossyRun, h0, lossyRun_saturate limit ws []]
  simp

theorem byteIndex_none_spec (sep : Char) (p : List Char) (h : byteIndex sep p = none) :
    p.takeWhile (fun c => c != sep) = p ∧ p.dropWhile (fun c => c != sep) = [] := by
  induction p with
  | nil => simp
  | cons c cs ih =>
    by_cases hc : c = sep
    · simp [byteIndex, hc] at h
    · simp only [byteIndex, if_neg hc] at h
      cases hcs : byteIndex sep cs with
      | none =>
        have := ih (by simp [hcs])
        simp [List.takeWhile_cons, List.dropWhile_cons, hc, this.1, this.2]
      | some j => rw [hcs] at h; simp at h

theorem byteIndex_some_spec (sep : Char) (p : List Char) :
    ∀ i, byteIndex sep p = some i →
      p.takeWhile (fun c => c != sep) = p.take i ∧
        p.dropWhile (fun c => c != sep) = p.drop i ∧ i < p.length := by
  induction p with
  | nil => intro i h; simp [byteIndex] at h
  | cons c cs ih =>
    intro i h
    by_cases hc : c = sep
    · simp only [byteIndex, if_pos hc, Option.some.injEq] at h
      subst h
      refine ⟨?_, ?_, ?_⟩
      · simp [List.takeWhile_cons, hc]
      · simp [List.dropWhile_cons, hc]
      · simp
    · simp only [byteIndex, if_neg hc] at h
      cases hcs : byteIndex sep cs with
      | none => rw [hcs] at h; simp at h
      | some j =>
        rw [hcs] at h
        simp only [Option.map_some', Option.some.injEq] at h
        subst h
        obtain ⟨t1, t2, t3⟩ := ih j hcs
        refine ⟨?_, ?_, ?_⟩
        · simp [List.takeWhile_cons, hc, t1]
        · simp [List.dropWhile_cons, hc, t2]
        · simp; omega

/-- The drain/retain core of synchronizedWriter.Write coincides with its
case description: buffer on no newline, discard on a leading newline,
otherwise drain through the first newline exclusively and retain from the
newline onward. -/
theorem syncWriteChunk_cases (b p : List Char) : syncWriteChunk b p = syncWriteAmended b p := by
  unfold syncWriteChunk syncWriteAmended
  cases hidx : byteIndex '\n' p with
  | none =>
    obtain ⟨ht, hd⟩ := byteIndex_none_spec '\n' p hidx
    simp [ht, hd]
  | some i =>
    obtain ⟨ht, hd, hlen⟩ := byteIndex_some_spec '\n' p i hidx
    cases i with
    | zero =>
      have hp : p ≠ [] := by intro e; subst e; simp at hlen
      simp [ht, hd, hp]
    | succ j =>
      have hpost : p.drop (j + 1) ≠ [] := by
        rw [Ne, List.drop_eq_nil_iff]; omega
      have hpre : p.take (j + 1) ≠ [] := by
        rw [Ne, List.take_eq_nil_iff]
        push_neg
        exact ⟨by omega, by intro e; subst e; simp at hlen⟩
      simp [ht, hd, hpost, hpre]

theorem replaceGo_id (pat rep : List Char) :
    ∀ (fuel : Nat) (s : List Char), occursIn pat s = false → replaceGo pat rep fuel s = s := by
  intro fuel
  induction fuel with
  | zero => intro s hs; cases s <;> simp [replaceGo]
  | succ f ih =>
    intro s hs
    cases s with
    | nil => simp [replaceGo]
    | cons c cs =>
      simp only [occursIn, Bool.or_eq_false_iff] at hs
      simp only [replaceGo]
      rw [if_neg, ih cs hs.2]
      intro hcon
      exact absurd hcon.2 (by simp [hs.1])

/-- strings.Replace leaves a subject without any occurrence of the
pattern unchanged. -/
theorem goReplace_id (s pat rep : String) (h : occursIn pat.data s.data = false) :
    goReplace s pat rep = s := by
  cases s with
  | mk data => simp [goReplace, replaceTok, replaceGo_id pat.data rep.data data.length data h]

theorem sum_map_const (l : List String) (c : Int) :
    (l.map (fun _ => c)).sum = (l.length : Int) * c := by
  induction l with
  | nil => simp
  | cons a as ih =>
    simp only [List.map_cons, List.sum_cons, ih, List.length_cons]
    push_cast
    ring

/-- C9: Spec.Validate checks Command, Timeout, Parallel, StdoutBytes,
StderrBytes in that fixed order and returns the distinct error of the
first violated constraint: the cascade of progressively filled specs
yields ErrNoCommand, ErrNoTimeout, ErrNoParallel, ErrNoStdoutBytes,
ErrNoStderrBytes, nil; and it returns nil exactly when Command is
non-empty and the four numeric fields are strictly positive. -/
theorem spec_validate_cascade :
    Spec.Validate {} = some SpecError.noCommand ∧
    Spec.Validate { Command := "a" } = some SpecError.noTimeout ∧
    Spec.Validate { Command := "a", Timeout := 1 } = some SpecError.noParallel ∧
    Spec.Validate { Command := "a", Timeout := 1, Parallel := 1 } = some SpecError.noStdoutBytes ∧
    Spec.Validate { Command := "a", Timeout := 1, Parallel := 1, StdoutBytes := 1 } =
      some SpecError.noStderrBytes ∧
    Spec.Validate { Command := "a", Timeout := 1, Parallel := 1, StdoutBytes := 1, StderrBytes := 1 } =
      none ∧
    (∀ s : Spec, s.Command = "" → s.Validate = some SpecError.noCommand) ∧
    (∀ s : Spec, s.Command ≠ "" → s.Timeout ≤ 0 → s.Validate = some SpecError.noTimeout) ∧
    (∀ s : Spec, s.Command ≠ "" → 0 < s.Timeout → s.Parallel ≤ 0 →
      s.Validate = some SpecError.noParallel) ∧
    (∀ s : Spec, s.Command ≠ "" → 0 < s.Timeout → 0 < s.Parallel → s.StdoutBytes ≤ 0 →
      s.Validate = some SpecError.noStdoutBytes) ∧
    (∀ s : Spec, s.Command ≠ "" → 0 < s.Timeout → 0 < s.Parallel → 0 < s.StdoutBytes →
      s.StderrBytes ≤ 0 → s.Validate = some SpecError.noStderrBytes) ∧
    (∀ s : Spec, s.Validate = none ↔
      (s.Command ≠ "" ∧ 0 < s.Timeout ∧ 0 < s.Parallel ∧ 0 < s.StdoutBytes ∧ 0 < s.StderrBytes)) := by
  refine ⟨by decide, by decide, by decide, by decide, by decide, by decide, ?_, ?_, ?_, ?_, ?_, ?_⟩
  · intro s h1
    simp [Spec.Validate, h1]
  · intro s h1 h2
    simp [Spec.Validate, h1, h2]
  · intro s h1 h2 h3
    unfold Spec.Validate
    rw [if_neg h1, if_neg (by omega : ¬ s.Timeout ≤ 0), if_pos h3]
  · intro s h1 h2 h3 h4
    unfold Spec.Validate
    rw [if_neg h1, if_neg (by omega : ¬ s.Timeout ≤ 0),
      if_neg (by omega : ¬ s.Parallel ≤ 0), if_pos h4]
  · intro s h1 h2 h3 h4 h5
    unfold Spec.Validate
    rw [if_neg h1, if_neg (by omega : ¬ s.Timeout ≤ 0),
      if_neg (by omega : ¬ s.Parallel ≤ 0), if_neg (by omega : ¬ s.StdoutBytes ≤ 0), if_pos h5]
  · intro s
    unfold Spec.Validate
    split_ifs with h1 h2 h3 h4 h5 <;> simp_all

/-- C9 witness: a spec with command and timeout set but parallel unset is
rejected with the parallel error. -/
theorem spec_validate_cascade_witness :
    Spec.Validate { Command := "b", Timeout := 2 } = some SpecError.noParallel := by
  have h := spec_validate_cascade
  exact h.2.2.2.2.2.2.2.2.1 { Command := "b", Timeout := 2 } (by decide) (by decide) (by decide)

/-- C2: with a positive byte cap, after any sequence of writes the
lossyWriter buffer — and hence the captured Result stdout/stderr that
runCmd reads back from it — never exceeds Limit + 5 bytes, 5 being the
length of the "[...]" marker. -/
theorem lossyWriter_capture_bounded (limit : Nat) (hl : 0 < limit) (ws : List (List Char)) :
    (lossyRun limit ws).length ≤ limit + 5 := by
  rw [lossyRun_eq limit hl ws]
  unfold lossySaturate
  split
  · omega
  · have hm : ellipsisMarker.length = 5 := by decide
    simp only [List.length_append, List.length_take, hm]
    omega

/-- C2 witness: a three-byte stream against a cap of one byte stays within
1 + 5 bytes. -/
theorem lossyWriter_capture_bounded_witness :
    0 < 1 ∧ (lossyRun 1 [['x', 'y', 'z']]).length ≤ 1 + 5 :=
  ⟨by decide, lossyWriter_capture_bounded 1 (by decide) [['x', 'y', 'z']]⟩

/-- C6: lossyWriter.Write always reports the full input length and never
errors; a single write straddling the limit stores exactly the prefix
filling the buffer to Limit bytes, drops the suffix, and appends the
marker; and over any write stream from a fresh sink with positive limit
the buffer is the stream while under the limit and otherwise its
Limit-byte prefix with the marker appended exactly once, the marker not
counted against Limit. -/
theorem lossyWriter_write_contract :
    (∀ (w : LossyWriter) (p : List Char), (w.Write p).1 = p.length) ∧
    (∀ (limit : Nat) (buf p : List Char), buf.length < limit → limit < buf.length + p.length →
      (LossyWriter.Write ⟨limit, buf⟩ p).2.Buffer =
        buf ++ p.take (limit - buf.length) ++ ellipsisMarker) ∧
    (∀ limit : Nat, 0 < limit → ∀ ws : List (List Char),
      lossyRun limit ws =
        if ws.flatten.length < limit then ws.flatten
        else ws.flatten.take limit ++ ellipsisMarker) := by
  refine ⟨?_, ?_, ?_⟩
  · intro w p
    by_cases h : w.Buffer.length ≥ w.Limit <;> simp [LossyWriter.Write, h]
  · intro limit buf p h1 h2
    unfold LossyWriter.Write
    have hge : ¬ (buf.length ≥ limit) := by omega
    have hover : buf.length + p.length > limit := by omega
    simp only [if_neg hge, if_pos hover]
    have hlen : (buf ++ p.take (limit - buf.length)).length = limit := by
      simp only [List.length_append, List.length_take]; omega
    simp only [if_pos hlen]
  · intro limit hl ws
    rw [lossyRun_eq limit hl ws]
    rfl

/-- C6 witness: writing "cd" into a limit-3 sink holding "ab" keeps "c",
drops "d" and appends the marker, and the same stream from scratch gives
the same capped buffer. -/
theorem lossyWriter_write_contract_witness :
    (LossyWriter.Write ⟨3, ['a', 'b']⟩ ['c', 'd']).2.Buffer = "abc[...]".data ∧
    lossyRun 3 [['a', 'b'], ['c', 'd']] = "abc[...]".data := by
  have h := lossyWriter_write_contract
  constructor
  · rw [h.2.1 3 ['a', 'b'] ['c', 'd'] (by decide) (by decide)]
    decide
  · rw [h.2.2 3 (by decide) [['a', 'b'], ['c', 'd']]]
    decide

/-- Concrete fan-out spec used by the C7 witness: five workers over two
jump hosts. -/
def specC7 : JumpSpec := { Parallel := 5, JumpHosts := ["h1", "h2"] }

/-- C7: with positive Parallel and a non-empty JumpHosts list, the
per-intermediary parallelism of JumpExec equals max(1, Parallel divided by
the host count); the sum over intermediaries stays within Parallel when
Parallel is at least the host count and equals the host count otherwise. -/
theorem jump_parallel_degradation (s : JumpSpec) (hp : 0 < s.Parallel)
    (hh : s.JumpHosts ≠ []) :
    jumpParallel s = max 1 (s.Parallel / (s.JumpHosts.length : Int)) ∧
    ((s.JumpHosts.length : Int) ≤ s.Parallel →
      (s.JumpHosts.map (fun _ => jumpParallel s)).sum ≤ s.Parallel) ∧
    (s.Parallel < (s.JumpHosts.length : Int) →
      (s.JumpHosts.map (fun _ => jumpParallel s)).sum = (s.JumpHosts.length : Int)) := by
  have hlen : 0 < s.JumpHosts.length := List.length_pos.mpr hh
  have hH : (0 : Int) < (s.JumpHosts.length : Int) := by exact_mod_cast hlen
  have htdiv : Int.tdiv s.Parallel (s.JumpHosts.length : Int) =
      s.Parallel / (s.JumpHosts.length : Int) :=
    Int.tdiv_eq_ediv (le_of_lt hp) (le_of_lt hH)
  have hq0 : 0 ≤ s.Parallel / (s.JumpHosts.length : Int) :=
    Int.ediv_nonneg (le_of_lt hp) (le_of_lt hH)
  have hjp : jumpParallel s =
      if s.Parallel / (s.JumpHosts.length : Int) = 0 then 1
      else s.Parallel / (s.JumpHosts.length : Int) := by
    unfold jumpParallel
    rw [htdiv]
  have hdm := Int.ediv_add_emod s.Parallel (s.JumpHosts.length : Int)
  have hr0 := Int.emod_nonneg s.Parallel (ne_of_gt hH)
  refine ⟨?_, ?_, ?_⟩
  · rw [hjp]
    by_cases h0 : s.Parallel / (s.JumpHosts.length : Int) = 0
    · rw [if_pos h0, h0]
      simp
    · rw [if_neg h0, max_eq_right (by omega)]
  · intro hHP
    have hq1 : 1 ≤ s.Parallel / (s.JumpHosts.length : Int) :=
      (Int.le_ediv_iff_mul_le hH).mpr (by omega)
    rw [sum_map_const, hjp, if_neg (by omega)]
    nlinarith [hdm, hr0]
  · intro hPH
    have hq : s.Parallel / (s.JumpHosts.length : Int) = 0 :=
      Int.ediv_eq_zero_of_lt (le_of_lt hp) hPH
    rw [sum_map_const, hjp, if_pos hq]
    ring

/-- C7 witness: five workers over two hosts degrade to two per host, and
the total of four stays within the requested five. -/
theorem jump_parallel_degradation_witness :
    jumpParallel specC7 = 2 ∧
    (specC7.JumpHosts.map (fun _ => jumpParallel specC7)).sum ≤ specC7.Parallel := by
  have h := jump_parallel_degradation specC7 (by decide) (by decide)
  exact ⟨by decide, h.2.1 (by decide)⟩

/-- Valid spec whose Command contains the target token, used to test
whether runCmd templates the command name. -/
def specC1 : Spec :=
  { Command := "echo{.T}", Timeout := 1, Parallel := 1, StdoutBytes := 1, StderrBytes := 1 }

/-- C1 counterexample: on a valid Spec whose Command contains the token,
runCmd materialises a command different from the verbatim Command — the
command name does undergo substitution. -/
theorem runCmd_command_templated_cex :
    specC1.Validate = none ∧
    (runCmdArgv specC1 "x").1 = "echox" ∧
    (runCmdArgv specC1 "x").1 ≠ specC1.Command :=
  ⟨by decide, by decide, by decide⟩

/-- C1 amended: runCmd substitutes the target for the token both in the
command name and in every element of Args; a command that does not contain
the token, such as "echo", still runs verbatim. -/
theorem runCmd_command_also_templated (s : Spec) (target : String) :
    (runCmdArgv s target).1 = goReplace s.Command "{.T}" target ∧
    (runCmdArgv s target).2 = s.Args.map (fun a => goReplace a "{.T}" target) ∧
    (occursIn "{.T}".data s.Command.data = false → (runCmdArgv s target).1 = s.Command) := by
  refine ⟨rfl, rfl, ?_⟩
  intro h
  exact goReplace_id s.Command "{.T}" target h

/-- Spec with a token-free command, used by the C1 witness. -/
def specEcho : Spec :=
  { Command := "echo", Timeout := 1, Parallel := 1, StdoutBytes := 1, StderrBytes := 1 }

/-- C1 witness: "echo" holds no token and is materialised verbatim. -/
theorem runCmd_command_also_templated_witness :
    occursIn "{.T}".data ("echo" : String).data = false ∧
    (runCmdArgv specEcho "x").1 = "echo" :=
  ⟨by decide, (runCmd_command_also_templated specEcho "x").2.2 (by decide)⟩

/-- C5 counterexample: on the write "a\nb" into an empty sink the code
retains the bytes from the newline onward ("\nb"), not the bytes after the
newline ("b") as the claim describes. -/
theorem synchronizedWriter_retention_cex :
    syncWriteChunk [] ("a\nb".data) ≠ syncWriteClaimed [] ("a\nb".data) ∧
    syncWriteChunk [] ("a\nb".data) = ("a".data, "\nb".data) ∧
    syncWriteClaimed [] ("a\nb".data) = ("a".data, "b".data) :=
  ⟨by decide, by decide, by decide⟩

/-- C5 amended: on each write, with no newline the input is buffered; with
a leading newline the whole input is discarded and the buffer left alone;
otherwise the bytes before the first newline join the buffer, the
accumulated buffer is drained under the mutex, and the bytes from the
newline onward (the newline included) are retained; the concrete sequence
"hello", "world\n", "foobar" then Flush leaves exactly
"helloworld\nfoobar" on the underlying writer. -/
theorem synchronizedWriter_write_amended :
    (∀ b p : List Char, syncWriteChunk b p = syncWriteAmended b p) ∧
    ((((((⟨[], []⟩ : SynchronizedWriter).Write "hello".data).Write
        "world\n".data).Write "foobar".data).Flush).Writer = "helloworld\nfoobar".data) :=
  ⟨syncWriteChunk_cases, by decide⟩

/-- Schedule refuting line atomicity: sink B's complete write lands
between sink A's two writes. -/
def schedC4 : List SinkOp :=
  [SinkOp.wA ("a1\n".data), SinkOp.wB ("b1\n".data), SinkOp.wA ("a2\n".data)]

/-- C4: under an interleaving of Write calls on two sinks sharing one
mutex and one underlying writer, the complete newline-terminated line
"a1\n" written through sink A reaches the underlying writer (its three
bytes all appear, in order, among A's bytes) yet never appears
contiguously: B's bytes sit between the line's first byte and its
terminating newline, because each drain excludes the newline, which is
retained and only emitted with the same sink's next drain. -/
theorem synchronizedWriter_line_interleaving :
    (twoSinkRun schedC4).out =
      [(true, 'a'), (true, '1'), (false, 'b'), (false, '1'),
        (true, '\n'), (true, 'a'), (true, '2')] ∧
    ((twoSinkRun schedC4).out.filter (fun x => x.1)).map Prod.snd = "a1\na2".data ∧
    occursIn (tagged true ("a1\n".data)) (twoSinkRun schedC4).out = false :=
  ⟨by decide, by decide, by decide⟩

/-- C3: evaluation at the failing input: the malformed-line guard joins
its two conditions with a conjunction, so the first line "FOO=bar" — which
splits on "=" but not into an SSH_AUTH_SOCK pair — is not rejected; the
parser proceeds to extract the socket path "bar" from it. -/
theorem sshAgent_handshake_wrong_key_accepted :
    agentParseLine ("FOO=bar".data) = AgentOutcome.sock ("bar".data) ∧
    (sshAgentWriteStep false [] ("FOO=bar\n".data)).2.2 =
      some (AgentOutcome.sock ("bar".data)) :=
  ⟨by decide, by decide⟩

/-- C10: the newline-terminated first line "SSH_AUTH_SOCK" contains no "=",
its split has a single field, the conjunctive guard does not fire, and the
access to the second field is out of bounds: the total embedding yields no
value where the Go code panics. -/
theorem sshAgent_handshake_oob_index :
    (splitN2 '=' ("SSH_AUTH_SOCK".data)).length = 1 ∧
    (splitN2 '=' ("SSH_AUTH_SOCK".data)).get? 1 = none ∧
    (sshAgentWriteStep false [] ("SSH_AUTH_SOCK\n".data)).2.2 =
      some AgentOutcome.indexOutOfRange :=
  ⟨by decide, by decide, by decide⟩

/-- The JumpSpec of the fan-out argv synthesis test: one intermediary,
one-second timeout, echo as both remote shell and inner command. -/
def specC8 : JumpSpec :=
  { Command := "echo", Args := ["{.T}"], Timeout := 1000000000, Parallel := 1,
    StdoutBytes := 1024, StderrBytes := 1024, JumpCommand := "echo {.J}",
    JumpHosts := ["localhost"] }

/-- C8: the remote-shell argv is the {.J}-templated, space-tokenised
JumpCommand followed by the fixed nested-engine suffix and the original
Args, in exactly that order; on the test spec the echoed argv line is
exactly the expected string, "1s" being the Go rendering of the
one-second timeout. -/
theorem jump_argv_synthesis :
    (∀ (s : JumpSpec) (host timeoutStr : String),
      jumpArgv s host timeoutStr =
        ((goSplit (goReplace s.JumpCommand "{.J}" host) ' ').headD "",
          (goSplit (goReplace s.JumpCommand "{.J}" host) ' ').tail ++
            ["--", "ush", "exec", "--timeout=" ++ timeoutStr,
              "--parallel=" ++ goItoa (jumpParallel s),
              "--stdout_bytes=" ++ goItoa s.StdoutBytes,
              "--stderr_bytes=" ++ goItoa s.StderrBytes,
              "--", s.Command] ++ s.Args)) ∧
    (jumpArgv specC8 "localhost" "1s").1 = "echo" ∧
    (jumpArgv specC8 "localhost" "1s").2 =
      ["localhost", "--", "ush", "exec", "--timeout=1s", "--parallel=1",
        "--stdout_bytes=1024", "--stderr_bytes=1024", "--", "echo", "{.T}"] ∧
    joinSpace ((jumpArgv specC8 "localhost" "1s").2) =
      "localhost -- ush exec --timeout=1s --parallel=1 --stdout_bytes=1024 --stderr_bytes=1024 -- echo {.T}" :=
  ⟨fun _ _ _ => rfl, by decide, by decide, by decide⟩
